import Mathlib

/-!
Verification of the distributed-test and CI-tooling code of the repository:
a shallow embedding of `DummyProcessGroup` and its collectives, the barrier
protocol, the CI stats-export script, `gpus_for_rank`, and spec-modelled
definitions for the parts of the framework that the tests exercise but whose
implementation lives outside the reviewed files (bucket assignment, backend
registration, PowerSGD state validation, DDP gradient-readiness checking).

Tensors in the exercised tests hold small integer values on which the
floating-point arithmetic performed by the framework is exact, so tensor
elements are modelled as integers and a tensor as its flat list of elements.
-/

namespace PytorchC10d

/-- A tensor, modelled as the flat list of its (integer-valued) elements. -/
abbrev Tensor := List Int

/-- `DummyWork` from test_c10d_common.py: a trivial work handle. -/
structure DummyWork where
  deriving DecidableEq, Repr

/-- `DummyWork.wait(self, timeout=5.0)`: synchronizes the CUDA stream (a
no-op in the model) and returns `True`. -/
def DummyWork.wait (_w : DummyWork) (_timeout : Float) : Bool := true

/-- `DummyProcessGroup(rank, size)`: the state the test double carries. -/
structure DummyProcessGroup where
  rank : Nat
  size : Nat
  deriving DecidableEq, Repr

/-- `DummyProcessGroup.getBackendName`. -/
def DummyProcessGroup.getBackendName (_pg : DummyProcessGroup) : String := "Dummy"

/-- `DummyProcessGroup.allgather(output_tensor_lists, input_tensor_list)`:
`zip` pairs the first `min` lists; each output tensor of a paired output list
is overwritten by a copy of the paired input tensor; output lists beyond the
zip truncation are left untouched. -/
def DummyProcessGroup.allgather (_pg : DummyProcessGroup)
    (output_tensor_lists : List (List Tensor)) (input_tensor_list : List Tensor) :
    List (List Tensor) × DummyWork :=
  (List.zipWith (fun otl it => otl.map (fun _ => it)) output_tensor_lists input_tensor_list
      ++ output_tensor_lists.drop input_tensor_list.length,
   DummyWork.mk)

/-- `DummyProcessGroup.allreduce(tensor_list)`: `tensor.add_(2)` on each. -/
def DummyProcessGroup.allreduce (_pg : DummyProcessGroup) (tensor_list : List Tensor) :
    List Tensor × DummyWork :=
  (tensor_list.map (fun t => t.map (fun x => x + 2)), DummyWork.mk)

/-- `DummyProcessGroup.broadcast(tensor_list)`: `tensor.add_(1)` on each. -/
def DummyProcessGroup.broadcast (_pg : DummyProcessGroup) (tensor_list : List Tensor) :
    List Tensor × DummyWork :=
  (tensor_list.map (fun t => t.map (fun x => x + 1)), DummyWork.mk)

/-- `DummyProcessGroup.send(tensor_list, dst, tag)`: `tensor.add_(1)` on each. -/
def DummyProcessGroup.send (_pg : DummyProcessGroup) (tensor_list : List Tensor)
    (_dst : Nat) (_tag : Nat) : List Tensor × DummyWork :=
  (tensor_list.map (fun t => t.map (fun x => x + 1)), DummyWork.mk)

/-- `DummyProcessGroup.recv(tensor_list, src, tag)`: `tensor.add_(2)` on each. -/
def DummyProcessGroup.recv (_pg : DummyProcessGroup) (tensor_list : List Tensor)
    (_src : Nat) (_tag : Nat) : List Tensor × DummyWork :=
  (tensor_list.map (fun t => t.map (fun x => x + 2)), DummyWork.mk)

/-- The loop body of `DummyProcessGroup.reduce_scatter`: for each zipped pair,
`output_tensor.copy_(input_tensor_list[self.rank()])`; the indexing raises
`IndexError` (modelled as `none`) when `rank` is out of range. -/
def rsCopy (rank : Nat) : List (Tensor × List Tensor) → Option (List Tensor)
  | [] => some []
  | (_o, il) :: rest =>
    (il.get? rank).bind (fun t => (rsCopy rank rest).map (fun r => t :: r))

/-- `DummyProcessGroup.reduce_scatter(output_tensor_list, input_tensor_lists)`:
output tensor `i` is overwritten by tensor `rank` of input list `i`; output
tensors beyond the zip truncation are untouched. -/
def DummyProcessGroup.reduce_scatter (pg : DummyProcessGroup)
    (output_tensor_list : List Tensor) (input_tensor_lists : List (List Tensor)) :
    Option (List Tensor × DummyWork) :=
  (rsCopy pg.rank (output_tensor_list.zip input_tensor_lists)).map
    (fun upd => (upd ++ output_tensor_list.drop input_tensor_lists.length, DummyWork.mk))

/-- Return value of `DummyProcessGroup.barrier`: a fresh `DummyWork`. The
store-based synchronization protocol of `barrier` is modelled separately as
the step relation `BarrierStep` below. -/
def DummyProcessGroup.barrier (_pg : DummyProcessGroup) : DummyWork := DummyWork.mk

/-- Element `j` of tensor `i` of a tensor list, when both exist. -/
def tensorEntry? (tl : List Tensor) (i j : Nat) : Option Int :=
  (tl.get? i).bind (fun t => t.get? j)

/-! ### The barrier protocol of `DummyProcessGroup.barrier`

Rank 0 loops `while worker_count < size - 1: worker_count = store.add(key, 0)`;
every other rank executes the single statement `store.add(key, 1)` and
returns. The shared store counter is modelled by which of the `size - 1`
non-zero ranks have executed their `add`: entry `r` of `added` records whether
rank `r + 1` has added its 1, so the counter value is the count of `true`
entries. Rank 0 can exit its loop only when an `add(key, 0)` observation
returns at least `size - 1` (with `size = 1` the loop body never runs). -/

structure BarrierState where
  added : List Bool
  rank0Done : Bool
  deriving DecidableEq, Repr

/-- The value of the store counter under `"TEST:DummyProcessGroup:barrier"`. -/
def storeCounter (s : BarrierState) : Nat := s.added.count true

/-- One interleaving step of the barrier: either a non-zero rank that has not
yet run its straight-line `store.add(key, 1)` runs it, or rank 0 exits its
polling loop because `store.add(key, 0)` returned at least `size - 1`. -/
inductive BarrierStep (size : Nat) : BarrierState → BarrierState → Prop
  | workerAdd (s : BarrierState) (r : Nat) (hr : r < size - 1)
      (hnot : s.added.getD r false = false) :
      BarrierStep size s { s with added := s.added.set r true }
  | rank0Exit (s : BarrierState) (hc : size - 1 ≤ storeCounter s)
      (hnd : s.rank0Done = false) :
      BarrierStep size s { s with rank0Done := true }

/-- The state before any rank enters `barrier`. -/
def barrierInit (size : Nat) : BarrierState :=
  { added := List.replicate (size - 1) false, rank0Done := false }

/-! ### The CI stats-export script (tools/stats/export_test_times.py)

Python strings are modelled as their character lists, so that the script's
string processing is executable inside the kernel. -/

/-- A Python string, as its list of characters. -/
abbrev PyStr := List Char

/-- The command string of `get_sha_of_generated_stats_branch`. -/
def stats_command : PyStr :=
  "git ls-remote https://github.com/pytorch/test-infra generated-stats".data

/-- The whitespace characters of Python `str.split()` with no arguments:
space, tab, newline, carriage return, vertical tab, form feed. -/
def pyIsSpace (c : Char) : Bool :=
  c = ' ' || c = '\t' || c = '\n' || c = '\r' || c = '\x0b' || c = '\x0c'

/-- Python `s.split()` with no arguments: split on whitespace characters and
drop the empty pieces, leaving the maximal whitespace-free tokens. -/
def pySplit (s : PyStr) : List PyStr :=
  (List.splitOnP pyIsSpace s).filter (fun t => !t.isEmpty)

/-- `get_sha_of_generated_stats_branch()`: run `command.split(" ")` (abstracted
as the oracle `exec` from the argument list to the decoded output), split the
output on whitespace and take token 0. The unguarded `[0]` raises
`IndexError` when there is no token, modelled as `none`. -/
def get_sha_of_generated_stats_branch (exec : List PyStr → PyStr) : Option PyStr :=
  (pySplit (exec (List.splitOn ' ' stats_command))).head?

/-- The state of the output file `test-infra_generated-stats_branch_sha.txt`
after `main()` runs: `opened` records that `open(..., "w")` created or
truncated it. -/
structure FileState where
  path : PyStr
  opened : Bool
  content : PyStr
  deriving DecidableEq, Repr

/-- `main()`: `open` the file for writing (creating or truncating it), then
evaluate `get_sha_of_generated_stats_branch()` and write the result. The
second component is `none` when the `IndexError` propagates out of `main`,
which happens after the file has already been truncated. -/
def main_run (exec : List PyStr → PyStr) : FileState × Option Unit :=
  let f : FileState :=
    { path := "test-infra_generated-stats_branch_sha.txt".data,
      opened := true, content := [] }
  match get_sha_of_generated_stats_branch exec with
  | none => (f, none)
  | some sha => ({ f with content := sha }, some ())

/-! ### `gpus_for_rank` (test_c10d_common.py) -/

/-- `gpus_for_rank(world_size)`: split the visible devices
`range(device_count)` into `world_size` consecutive slices of
`device_count // world_size` devices each. `torch.cuda.device_count()` is
abstracted as the argument `deviceCount`. -/
def gpus_for_rank (deviceCount : Nat) (world_size : Nat) : List (List Nat) :=
  let visible_devices := List.range deviceCount
  let gpus_per_process := deviceCount / world_size
  (List.range world_size).map
    (fun rank => (visible_devices.drop (rank * gpus_per_process)).take gpus_per_process)

/-! ### Backend registration (exercised by PythonProcessGroupExtensionTest) -/

/-- An opaque store handle, as passed to a backend constructor. -/
structure Store where
  id : Nat
  deriving DecidableEq, Repr

/-- The type of a backend constructor: `(store, rank, size, timeout)` to a
process-group object. -/
abbrev BackendConstructor := Store → Nat → Nat → Nat → DummyProcessGroup

/-- `PythonProcessGroupExtensionTest.create_dummy(store, rank, size, timeout)`:
returns `DummyProcessGroup(rank, size)`. -/
def create_dummy : BackendConstructor :=
  fun _store rank size _timeout => DummyProcessGroup.mk rank size

/-- Python `str.upper()` on the ASCII backend names involved. -/
def pyUpper (s : PyStr) : PyStr := s.map Char.toUpper

/-- The observable registration state of `dist.Backend`: its string-valued
class attributes and its `_plugins` dictionary. -/
structure BackendRegistry where
  attr : PyStr → Option PyStr
  plugins : PyStr → Option BackendConstructor

/-- Modelled from the spec: `dist.Backend.register_backend`, the
"backend-registration entry point taking (store, rank, size, timeout) and
returning a process-group object", is not among the reviewed files. Per its
observable behaviour, registering a constructor under `name` sets the class
attribute named by the upper-cased name to the upper-cased name string and
records the constructor in `_plugins` under the upper-cased name. -/
def register_backend (name : PyStr) (func : BackendConstructor)
    (st : BackendRegistry) : BackendRegistry :=
  { attr := fun s => if s = pyUpper name then some (pyUpper name) else st.attr s,
    plugins := fun s => if s = pyUpper name then some func else st.plugins s }

/-! ### PowerSGD state validation (exercised by test_invalid_powerSGD_state) -/

/-- The PowerSGD error message asserted by the test. -/
def powerSGDErrMsg : String :=
  "Expect `start_powerSGD_iter` > 1 if `use_error_feedback` or `warm_start` is enabled, because PowerSGD can only be applied after the first two iterations in DDP."

/-- A constructed PowerSGD state (the fields the test passes). -/
structure PowerSGDState where
  matrix_approximation_rank : Nat
  start_powerSGD_iter : Nat
  use_error_feedback : Bool
  warm_start : Bool
  deriving DecidableEq, Repr

/-- Modelled from the spec: `powerSGD_hook.PowerSGDState.__init__` is not
among the reviewed files. Per the spec's "value errors on invalid
configuration combinations" and the asserted message, construction raises
`ValueError` (modelled as `Except.error` carrying the message) exactly when
`use_error_feedback` or `warm_start` is enabled while
`start_powerSGD_iter <= 1`. -/
def PowerSGDState.make (matrix_approximation_rank : Nat) (start_powerSGD_iter : Nat)
    (use_error_feedback : Bool) (warm_start : Bool) : Except String PowerSGDState :=
  if (use_error_feedback || warm_start) && start_powerSGD_iter ≤ 1 then
    Except.error powerSGDErrMsg
  else
    Except.ok
      { matrix_approximation_rank := matrix_approximation_rank,
        start_powerSGD_iter := start_powerSGD_iter,
        use_error_feedback := use_error_feedback,
        warm_start := warm_start }

/-! ### DDP backward with activation checkpointing
(exercised by the test_ddp_checkpointing_* tests) -/

/-- Which activation-checkpoint implementation a layer uses. -/
inductive CheckpointImpl
  | reentrant
  | nonReentrant
  deriving DecidableEq, Repr

/-- Modelled from the spec: the DDP reducer and the autograd checkpoint
engine are not among the reviewed files. The spec describes "runtime errors
on checkpoint re-entry and gradient-readiness violations": DDP expects each
variable to be marked ready exactly once per backward pass. Under the
reentrant implementation the checkpointed recomputation re-enters autograd
and fires the readiness hooks of the checkpointed layer again - once more for
each extra checkpoint call on the layer, and once more up front when
`find_unused_parameters` marks the parameters hidden behind the checkpoint as
unused. The non-reentrant implementation fires each hook exactly once. This
counts how many times the checkpointed layer's variables are marked ready. -/
def markReadyCount (impl : CheckpointImpl) (checkpointTwice : Bool)
    (find_unused_parameters : Bool) : Nat :=
  match impl with
  | .nonReentrant => 1
  | .reentrant =>
    (if checkpointTwice then 2 else 1) + (if find_unused_parameters then 1 else 0)

/-- The gradient-readiness violation message asserted by the tests. -/
def markReadyErrMsg : String := "Expected to mark a variable ready only once."

/-- Modelled from the spec: the outcome of one DDP backward pass over a model
whose checkpointed layer marks its variables ready `markReadyCount` times.
Per the glossary, `static_graph` asserts the participating-parameter set is
fixed across iterations, under which DDP tolerates repeated readiness
markings; without it, marking a variable ready more than once raises a
`RuntimeError` with `markReadyErrMsg`. -/
def ddp_backward (impl : CheckpointImpl) (checkpointTwice : Bool)
    (find_unused_parameters : Bool) (static_graph : Bool) : Except String Unit :=
  if 1 < markReadyCount impl checkpointTwice find_unused_parameters && !static_graph then
    Except.error markReadyErrMsg
  else
    Except.ok ()

/-! ### Bucket assignment by size (exercised by ComputeBucketAssignmentTest) -/

/-- The element types appearing in the bucket-assignment tests. -/
inductive ScalarType
  | float
  | double
  deriving DecidableEq, Repr

/-- Bytes per element. -/
def ScalarType.itemsize : ScalarType → Nat
  | .float => 4
  | .double => 8

/-- The metadata of a gradient tensor that bucket assignment looks at. -/
structure TensorMeta where
  dtype : ScalarType
  numel : Nat
  deriving DecidableEq, Repr

/-- The byte size of a tensor. -/
def TensorMeta.nbytes (t : TensorMeta) : Nat := t.numel * t.dtype.itemsize

/-- The bucket being accumulated for one dtype: the tensor indices collected
so far, their total byte size, and the position in the size-limit list. -/
structure BucketAccum where
  indices : List Nat
  sizeBytes : Nat
  limitIdx : Nat
  deriving DecidableEq, Repr

/-- The applicable size limit at position `k` of the limit list: the list is
consumed in order and its last element repeats. -/
def limAt (limits : List Nat) (k : Nat) : Nat :=
  limits.getD (min k (limits.length - 1)) 0

/-- The fold state of bucket assignment: finalized `(indices, limit)` buckets
in finalization order, plus one open accumulator per dtype (the tests use
CPU tensors of at most two dtypes, so the per-(dtype, device) key space is
`ScalarType`). -/
structure BAState where
  finalized : List (List Nat × Nat)
  floatAcc : BucketAccum
  doubleAcc : BucketAccum
  deriving DecidableEq, Repr

/-- The open accumulator for a dtype. -/
def BAState.acc (s : BAState) : ScalarType → BucketAccum
  | .float => s.floatAcc
  | .double => s.doubleAcc

/-- Replace the open accumulator for a dtype. -/
def BAState.setAcc (s : BAState) : ScalarType → BucketAccum → BAState
  | .float, a => { s with floatAcc := a }
  | .double, a => { s with doubleAcc := a }

/-- One step of bucket assignment on tensor `i`: append `i` to the dtype's
open bucket and add its bytes; when the bucket's size reaches the applicable
limit, finalize it with that limit and advance the dtype's limit position. -/
def baStep (limits : List Nat) (s : BAState) (it : Nat × TensorMeta) : BAState :=
  let i := it.1
  let t := it.2
  let a := s.acc t.dtype
  let indices := a.indices ++ [i]
  let size := a.sizeBytes + t.nbytes
  let lim := limAt limits a.limitIdx
  if lim ≤ size then
    { s.setAcc t.dtype { indices := [], sizeBytes := 0, limitIdx := a.limitIdx + 1 } with
      finalized := s.finalized ++ [(indices, lim)] }
  else
    s.setAcc t.dtype { indices := indices, sizeBytes := size, limitIdx := a.limitIdx }

/-- After the main loop, the nonempty open accumulators are finalized with
their current limits (in an order that the final sort makes irrelevant). -/
def baFinish (limits : List Nat) (s : BAState) : List (List Nat × Nat) :=
  s.finalized
    ++ (if s.floatAcc.indices.isEmpty then []
        else [(s.floatAcc.indices, limAt limits s.floatAcc.limitIdx)])
    ++ (if s.doubleAcc.indices.isEmpty then []
        else [(s.doubleAcc.indices, limAt limits s.doubleAcc.limitIdx)])

/-- The empty fold state. -/
def baInit : BAState :=
  { finalized := [], floatAcc := ⟨[], 0, 0⟩, doubleAcc := ⟨[], 0, 0⟩ }

/-- Modelled from the spec: `dist._compute_bucket_assignment_by_size` is not
among the reviewed files. Per the glossary ("Bucket: a group of gradient
tensors batched together for one combined communication call, bounded by a
byte-size limit") and the asserted outputs, tensors are walked in index
order, grouped per dtype into buckets closed as soon as their byte size
reaches the applicable limit (the limit list advancing per dtype, its last
entry repeating), trailing open buckets are closed at the end, and the
buckets are sorted by their smallest tensor index. Returns the index groups
and the per-bucket size limits. -/
def compute_bucket_assignment_by_size (tensors : List TensorMeta)
    (limits : List Nat) : List (List Nat) × List Nat :=
  let s := tensors.enum.foldl (baStep limits) baInit
  let buckets := (baFinish limits s).insertionSort (fun p q => p.1.headD 0 ≤ q.1.headD 0)
  (buckets.map Prod.fst, buckets.map Prod.snd)

/-- The byte size of the tensor at index `i` (0 when out of range). -/
def bytesAt (tensors : List TensorMeta) (i : Nat) : Nat :=
  ((tensors.get? i).map TensorMeta.nbytes).getD 0

/-- The byte size of the tensors at a list of indices. -/
def sumBytes (tensors : List TensorMeta) (l : List Nat) : Nat :=
  (l.map (bytesAt tensors)).sum

/-- The dtype of the tensor at index `i`, when it exists. -/
def dtypeAt (tensors : List TensorMeta) (i : Nat) : Option ScalarType :=
  (tensors.get? i).map TensorMeta.dtype

/-! ## Theorems -/

/-- Mapping a constant function over a list yields a replicated list. -/
theorem map_const_eq_replicate {α β : Type} (l : List α) (b : β) :
    l.map (fun _ => b) = List.replicate l.length b := by
  induction l with
  | nil => rfl
  | cons a l ih => simp [ih, List.replicate_succ]

/-- Elementwise view of mapping a function over every tensor of a list. -/
theorem tensorEntry?_map_map (f : Int → Int) (tl : List Tensor) (i j : Nat) :
    tensorEntry? (tl.map (fun t => t.map f)) i j = (tensorEntry? tl i j).map f := by
  simp only [tensorEntry?, List.get?_eq_getElem?, List.getElem?_map]
  cases tl[i]? with
  | none => rfl
  | some t => simp [List.getElem?_map]

/-- The copy loop of `reduce_scatter`, on success, has one output per zipped
pair, and output `i` is tensor `rank` of input list `i`. -/
theorem rsCopy_spec (rank : Nat) :
    ∀ (ps : List (Tensor × List Tensor)) (upd : List Tensor),
      rsCopy rank ps = some upd →
      upd.length = ps.length ∧
      ∀ i, i < ps.length → upd.get? i = ((ps.getD i ([], [])).2).get? rank := by
  intro ps
  induction ps with
  | nil =>
    intro upd h
    simp only [rsCopy, Option.some.injEq] at h
    subst h
    exact ⟨rfl, fun i hi => absurd hi (by simp)⟩
  | cons p rest ih =>
    intro upd h
    obtain ⟨o, il⟩ := p
    simp only [rsCopy, Option.bind_eq_some, Option.map_eq_some'] at h
    obtain ⟨t, ht, u, hu, rfl⟩ := h
    obtain ⟨hlen, helem⟩ := ih u hu
    refine ⟨by simpa using hlen, ?_⟩
    intro i hi
    cases i with
    | zero => simpa using ht.symm
    | succ i =>
      have hi' : i < rest.length := by simpa using hi
      simpa using helem i hi'

/-- `allgather` fills the `i`-th output tensor list (for `i` within both
arguments) with copies of the `i`-th input tensor. -/
theorem allgather_fills (pg : DummyProcessGroup) (otls : List (List Tensor))
    (itl : List Tensor) (i : Nat) (h1 : i < otls.length) (h2 : i < itl.length) :
    (pg.allgather otls itl).1.getD i [] =
      List.replicate (otls.getD i []).length (itl.getD i []) := by
  unfold DummyProcessGroup.allgather
  have hz : i < (List.zipWith (fun otl it => otl.map (fun _ => it)) otls itl).length := by
    rw [List.length_zipWith]
    exact lt_min h1 h2
  simp only [List.getD_eq_getElem?_getD]
  rw [List.getElem?_append_left hz, List.getElem?_zipWith,
    List.getElem?_eq_getElem h1, List.getElem?_eq_getElem h2]
  simp [map_const_eq_replicate, List.getElem?_eq_getElem h1, List.getElem?_eq_getElem h2]

/-- C1: each collective of `DummyProcessGroup` has these exact semantics:
allreduce adds 2 elementwise to every tensor in its list; broadcast adds 1;
send adds 1 and recv adds 2; allgather copies the i-th input tensor into
every tensor of the i-th output tensor list; reduce_scatter copies the
rank-th tensor of the i-th input tensor list into the i-th output tensor.
Consequently, after all_gather every output tensor equals the input tensor,
after all_reduce on an all-sevens tensor every entry equals 9, after
broadcast of a zero tensor every entry equals 1, and after reduce_scatter of
all-ones input lists the output tensor is all ones. -/
theorem dummy_collectives_semantics :
    (∀ (pg : DummyProcessGroup) (tl : List Tensor) (i j : Nat),
      tensorEntry? (pg.allreduce tl).1 i j = (tensorEntry? tl i j).map (fun x => x + 2)) ∧
    (∀ (pg : DummyProcessGroup) (tl : List Tensor) (i j : Nat),
      tensorEntry? (pg.broadcast tl).1 i j = (tensorEntry? tl i j).map (fun x => x + 1)) ∧
    (∀ (pg : DummyProcessGroup) (tl : List Tensor) (dst tag i j : Nat),
      tensorEntry? (pg.send tl dst tag).1 i j = (tensorEntry? tl i j).map (fun x => x + 1)) ∧
    (∀ (pg : DummyProcessGroup) (tl : List Tensor) (src tag i j : Nat),
      tensorEntry? (pg.recv tl src tag).1 i j = (tensorEntry? tl i j).map (fun x => x + 2)) ∧
    (∀ (pg : DummyProcessGroup) (otls : List (List Tensor)) (itl : List Tensor)
        (i : Nat), i < otls.length → i < itl.length →
      (pg.allgather otls itl).1.getD i [] =
        List.replicate (otls.getD i []).length (itl.getD i [])) ∧
    (∀ (pg : DummyProcessGroup) (otl : List Tensor) (itls : List (List Tensor))
        (res : List Tensor) (w : DummyWork),
      pg.reduce_scatter otl itls = some (res, w) →
      ∀ i, i < otl.length → i < itls.length →
        res.get? i = (itls.getD i []).get? pg.rank) ∧
    (((DummyProcessGroup.mk 0 2).allgather
        [[[0, 0, 0, 0], [0, 0, 0, 0]]] [[7, 7, 7, 7]]).1
      = [[[7, 7, 7, 7], [7, 7, 7, 7]]]) ∧
    (((DummyProcessGroup.mk 0 2).allreduce [[7, 7, 7, 7]]).1 = [[9, 9, 9, 9]]) ∧
    (((DummyProcessGroup.mk 0 2).broadcast [[0, 0, 0, 0]]).1 = [[1, 1, 1, 1]]) ∧
    ((DummyProcessGroup.mk 0 2).reduce_scatter [[0, 0, 0, 0]]
        [[[1, 1, 1, 1], [1, 1, 1, 1]]] = some ([[1, 1, 1, 1]], DummyWork.mk)) := by
  refine ⟨fun pg tl i j => tensorEntry?_map_map _ tl i j,
    fun pg tl i j => tensorEntry?_map_map _ tl i j,
    fun pg tl dst tag i j => tensorEntry?_map_map _ tl i j,
    fun pg tl src tag i j => tensorEntry?_map_map _ tl i j,
    allgather_fills, ?_, by decide, by decide, by decide, by decide⟩
  intro pg otl itls res w h i hio hii
  unfold DummyProcessGroup.reduce_scatter at h
  cases hr : rsCopy pg.rank (otl.zip itls) with
  | none => rw [hr] at h; cases h
  | some upd =>
    rw [hr] at h
    simp only [Option.map_some', Option.some.injEq, Prod.mk.injEq] at h
    obtain ⟨hres, -⟩ := h
    obtain ⟨hlen, helem⟩ := rsCopy_spec pg.rank (otl.zip itls) upd hr
    have hiz : i < (otl.zip itls).length := by
      rw [List.length_zip]
      exact lt_min hio hii
    have hgz : (otl.zip itls).getD i ([], []) = (otl.getD i [], itls.getD i []) := by
      simp only [List.getD_eq_getElem?_getD, List.zip_eq_zipWith, List.getElem?_zipWith,
        List.getElem?_eq_getElem hio, List.getElem?_eq_getElem hii]
      rfl
    have h1 : res.get? i = upd.get? i := by
      rw [← hres, List.get?_eq_getElem?, List.get?_eq_getElem?,
        List.getElem?_append_left (by rw [hlen]; exact hiz)]
    rw [h1, helem i hiz, hgz]

theorem dummy_collectives_semantics_witness :
    (((DummyProcessGroup.mk 0 2).allgather [[[0, 0], [0, 0]]] [[7, 7]]).1.getD 0 []
        = List.replicate (([[[0, 0], [0, 0]]] : List (List Tensor)).getD 0 []).length
            (([[7, 7]] : List Tensor).getD 0 [])) ∧
    (([[1, 1]] : List Tensor).get? 0
        = (([[[1, 1], [1, 1]]] : List (List Tensor)).getD 0 []).get?
            (DummyProcessGroup.mk 0 2).rank) := by
  constructor
  · exact dummy_collectives_semantics.2.2.2.2.1 (DummyProcessGroup.mk 0 2)
      [[[0, 0], [0, 0]]] [[7, 7]] 0 (by decide) (by decide)
  · exact dummy_collectives_semantics.2.2.2.2.2.1 (DummyProcessGroup.mk 0 2)
      [[0, 0]] [[[1, 1], [1, 1]]] [[1, 1]] DummyWork.mk (by decide) 0
      (by decide) (by decide)

/-- C2: `DummyProcessGroup` implements every operation of the fixed
capability set {allgather, allreduce, barrier, broadcast, reduce_scatter,
send, recv}, its backend name is "Dummy", and every one of these operations
returns a work object whose `wait()` returns `True`. -/
theorem dummy_pg_capability_set :
    (∀ pg : DummyProcessGroup, pg.getBackendName = "Dummy") ∧
    (∀ (w : DummyWork) (t : Float), w.wait t = true) ∧
    (∀ (pg : DummyProcessGroup) (otls : List (List Tensor)) (itl : List Tensor)
        (t : Float), ((pg.allgather otls itl).2).wait t = true) ∧
    (∀ (pg : DummyProcessGroup) (tl : List Tensor) (t : Float),
      ((pg.allreduce tl).2).wait t = true) ∧
    (∀ (pg : DummyProcessGroup) (t : Float), (pg.barrier).wait t = true) ∧
    (∀ (pg : DummyProcessGroup) (tl : List Tensor) (t : Float),
      ((pg.broadcast tl).2).wait t = true) ∧
    (∀ (pg : DummyProcessGroup) (otl : List Tensor) (itls : List (List Tensor))
        (res : List Tensor) (w : DummyWork) (t : Float),
      pg.reduce_scatter otl itls = some (res, w) → w.wait t = true) ∧
    (∀ (pg : DummyProcessGroup) (tl : List Tensor) (dst tag : Nat) (t : Float),
      ((pg.send tl dst tag).2).wait t = true) ∧
    (∀ (pg : DummyProcessGroup) (tl : List Tensor) (src tag : Nat) (t : Float),
      ((pg.recv tl src tag).2).wait t = true) := by
  refine ⟨fun _ => rfl, fun _ _ => rfl, fun _ _ _ _ => rfl, fun _ _ _ => rfl,
    fun _ _ => rfl, fun _ _ _ => rfl, fun _ _ _ _ _ _ _ => rfl,
    fun _ _ _ _ _ => rfl, fun _ _ _ _ _ => rfl⟩

theorem dummy_pg_capability_set_witness :
    DummyWork.wait DummyWork.mk 5.0 = true :=
  dummy_pg_capability_set.2.2.2.2.2.2.1 (DummyProcessGroup.mk 0 2)
    [[0, 0]] [[[1, 1], [1, 1]]] [[1, 1]] DummyWork.mk 5.0 (by decide)

/-- C3: `main()` of the CI stats-export script fetches the first
whitespace-separated token of the output of
`git ls-remote https://github.com/pytorch/test-infra generated-stats` and
writes exactly that token, and nothing else, to the file
test-infra_generated-stats_branch_sha.txt. -/
theorem stats_export_writes_first_token (exec : List PyStr → PyStr)
    (tok : PyStr) (rest : List PyStr)
    (h : pySplit (exec (List.splitOn ' ' stats_command)) = tok :: rest) :
    main_run exec =
      ({ path := "test-infra_generated-stats_branch_sha.txt".data,
         opened := true, content := tok }, some ()) := by
  unfold main_run get_sha_of_generated_stats_branch
  rw [h]
  rfl

theorem stats_export_writes_first_token_witness :
    main_run (fun _ => "abc123\trefs/heads/generated-stats\n".data) =
      ({ path := "test-infra_generated-stats_branch_sha.txt".data,
         opened := true, content := "abc123".data }, some ()) :=
  stats_export_writes_first_token _ "abc123".data
    ["refs/heads/generated-stats".data] (by decide)

/-- C10: when the remote version-control query produces output with no
whitespace-separated tokens, `get_sha_of_generated_stats_branch` raises an
uncaught IndexError (modelled as `none`) from the unguarded `[0]` index, and
`main()` has by then already created or truncated
test-infra_generated-stats_branch_sha.txt, leaving it empty. -/
theorem stats_export_empty_output_truncates (exec : List PyStr → PyStr)
    (h : pySplit (exec (List.splitOn ' ' stats_command)) = []) :
    get_sha_of_generated_stats_branch exec = none ∧
    main_run exec =
      ({ path := "test-infra_generated-stats_branch_sha.txt".data,
         opened := true, content := [] }, none) := by
  have hg : get_sha_of_generated_stats_branch exec = none := by
    unfold get_sha_of_generated_stats_branch
    rw [h]
    rfl
  refine ⟨hg, ?_⟩
  unfold main_run
  rw [hg]

theorem stats_export_empty_output_truncates_witness :
    get_sha_of_generated_stats_branch (fun _ => []) = none ∧
    main_run (fun _ => []) =
      ({ path := "test-infra_generated-stats_branch_sha.txt".data,
         opened := true, content := [] }, none) :=
  stats_export_empty_output_truncates (fun _ => []) (by decide)

/-- C4: `create_dummy` takes exactly the four arguments
(store, rank, size, timeout) and returns a `DummyProcessGroup` built from
rank and size; registering it under the name "dummy" makes the
`Backend.DUMMY` attribute equal to the string "DUMMY" and records the
constructor under key "DUMMY" in `Backend._plugins`. -/
theorem create_dummy_registration :
    (∀ (store : Store) (rank size timeout : Nat),
      create_dummy store rank size timeout = DummyProcessGroup.mk rank size) ∧
    (∀ st : BackendRegistry,
      (register_backend "dummy".data create_dummy st).attr "DUMMY".data
          = some "DUMMY".data ∧
      (register_backend "dummy".data create_dummy st).plugins "DUMMY".data
          = some create_dummy) := by
  have h : pyUpper "dummy".data = "DUMMY".data := by decide
  refine ⟨fun _ _ _ _ => rfl, fun st => ⟨?_, ?_⟩⟩
  · simp only [register_backend]
    rw [h]
    simp
  · simp only [register_backend]
    rw [h]
    simp

/-- C6: under the reentrant checkpoint implementation without static graph,
DDP backward raises RuntimeError "Expected to mark a variable ready only
once." both when `find_unused_parameters=True` with a once-checkpointed layer
and when the same layer is checkpointed twice (with or without
`find_unused_parameters`); under the non-reentrant implementation the
identical loops complete without error, and with `static_graph=True` both
implementations succeed. -/
theorem ddp_checkpointing_outcomes :
    (ddp_backward .reentrant false true false = Except.error markReadyErrMsg) ∧
    (∀ fu : Bool,
      ddp_backward .reentrant true fu false = Except.error markReadyErrMsg) ∧
    (ddp_backward .nonReentrant false true false = Except.ok ()) ∧
    (∀ fu : Bool, ddp_backward .nonReentrant true fu false = Except.ok ()) ∧
    (∀ (impl : CheckpointImpl) (tw fu : Bool),
      ddp_backward impl tw fu true = Except.ok ()) := by
  refine ⟨rfl, fun fu => ?_, rfl, fun fu => ?_, fun impl tw fu => ?_⟩
  · cases fu <;> rfl
  · cases fu <;> rfl
  · cases impl <;> cases tw <;> cases fu <;> rfl

/-- C7: for every start_powerSGD_iter in {0, 1} with use_error_feedback or
warm_start enabled, constructing a PowerSGDState raises a ValueError whose
message states that `start_powerSGD_iter` must exceed 1 when
`use_error_feedback` or `warm_start` is enabled. -/
theorem invalid_powerSGD_state (r s : Nat) (ef ws : Bool)
    (hs : s = 0 ∨ s = 1) (hflag : ef = true ∨ ws = true) :
    PowerSGDState.make r s ef ws = Except.error powerSGDErrMsg := by
  unfold PowerSGDState.make
  have h1 : (ef || ws) = true := by
    rcases hflag with h | h <;> simp [h]
  have h2 : s ≤ 1 := by rcases hs with h | h <;> omega
  simp [h1, h2]

theorem invalid_powerSGD_state_witness :
    PowerSGDState.make 1 1 true false = Except.error powerSGDErrMsg :=
  invalid_powerSGD_state 1 1 true false (Or.inr rfl) (Or.inl rfl)

/-- Taking `k` elements after dropping `m` from `range n` gives the
consecutive block starting at `m`, provided the block fits. -/
theorem range_drop_take (n m k : Nat) (h : m + k ≤ n) :
    ((List.range n).drop m).take k = List.range' m k := by
  apply List.ext_getElem?
  intro j
  rw [List.getElem?_take]
  by_cases hj : j < k
  · rw [if_pos hj, List.getElem?_drop, List.getElem?_range (by omega),
      List.getElem?_range' m 1 hj]
    congr 1
    omega
  · rw [if_neg hj]
    symm
    apply List.getElem?_eq_none
    rw [List.length_range']
    omega

/-- C8: for every world_size >= 1, `gpus_for_rank(world_size)` returns
exactly world_size pairwise-disjoint lists of device indices; with `d`
visible devices and `k = d // world_size`, rank `r` receives exactly the
consecutive indices from `r*k` up to `(r+1)*k - 1`, so every rank gets the
same number `k` of devices, and the last `d mod world_size` devices are
assigned to no rank. -/
theorem gpus_for_rank_spec (d ws : Nat) (_hws : 1 ≤ ws) :
    (gpus_for_rank d ws).length = ws ∧
    (∀ r, r < ws →
      (gpus_for_rank d ws).get? r = some (List.range' (r * (d / ws)) (d / ws))) ∧
    (∀ r1 r2, r1 < ws → r2 < ws → r1 ≠ r2 →
      ∀ x, x ∈ (gpus_for_rank d ws).getD r1 [] →
        x ∉ (gpus_for_rank d ws).getD r2 []) ∧
    (∀ x, d - d % ws ≤ x → ∀ l, l ∈ gpus_for_rank d ws → x ∉ l) := by
  have hfr : gpus_for_rank d ws =
      (List.range ws).map
        (fun rank => ((List.range d).drop (rank * (d / ws))).take (d / ws)) := rfl
  have hwk : ws * (d / ws) ≤ d := by
    calc ws * (d / ws) = d / ws * ws := Nat.mul_comm ws (d / ws)
    _ ≤ d := Nat.div_mul_le_self d ws
  have hget : ∀ r, r < ws →
      (gpus_for_rank d ws).get? r = some (List.range' (r * (d / ws)) (d / ws)) := by
    intro r hr
    rw [hfr, List.get?_eq_getElem?, List.getElem?_map, List.getElem?_range hr]
    have hrk : (r + 1) * (d / ws) ≤ ws * (d / ws) :=
      Nat.mul_le_mul_right (d / ws) (by omega)
    have hsucc : (r + 1) * (d / ws) = r * (d / ws) + d / ws := Nat.succ_mul r (d / ws)
    rw [Option.map_some']
    rw [range_drop_take d (r * (d / ws)) (d / ws) (by omega)]
  have hgetD : ∀ r, r < ws →
      (gpus_for_rank d ws).getD r [] = List.range' (r * (d / ws)) (d / ws) := by
    intro r hr
    rw [List.getD_eq_getElem?_getD, ← List.get?_eq_getElem?, hget r hr]
    rfl
  refine ⟨by rw [hfr]; simp, hget, ?_, ?_⟩
  · intro r1 r2 h1 h2 hne x hx1 hx2
    rw [hgetD r1 h1, List.mem_range'_1] at hx1
    rw [hgetD r2 h2, List.mem_range'_1] at hx2
    rcases Nat.lt_or_ge r1 r2 with hlt | hge
    · have hm : (r1 + 1) * (d / ws) ≤ r2 * (d / ws) :=
        Nat.mul_le_mul_right (d / ws) (by omega)
      have hs1 : (r1 + 1) * (d / ws) = r1 * (d / ws) + d / ws := Nat.succ_mul _ _
      omega
    · have hlt2 : r2 < r1 := by omega
      have hm : (r2 + 1) * (d / ws) ≤ r1 * (d / ws) :=
        Nat.mul_le_mul_right (d / ws) (by omega)
      have hs2 : (r2 + 1) * (d / ws) = r2 * (d / ws) + d / ws := Nat.succ_mul _ _
      omega
  · intro x hx l hl hxl
    rw [hfr, List.mem_map] at hl
    obtain ⟨r, hr, rfl⟩ := hl
    rw [List.mem_range] at hr
    have hrk : (r + 1) * (d / ws) ≤ ws * (d / ws) :=
      Nat.mul_le_mul_right (d / ws) (by omega)
    have hsucc : (r + 1) * (d / ws) = r * (d / ws) + d / ws := Nat.succ_mul _ _
    rw [range_drop_take d (r * (d / ws)) (d / ws) (by omega),
      List.mem_range'_1] at hxl
    have hmod : ws * (d / ws) + d % ws = d := Nat.div_add_mod d ws
    omega

theorem gpus_for_rank_spec_witness :
    (gpus_for_rank 4 2).get? 0 = some (List.range' (0 * (4 / 2)) (4 / 2)) :=
  (gpus_for_rank_spec 4 2 (by decide)).2.1 0 (by decide)

/-- The invariant of the barrier protocol: the added-flag list keeps its
length, and once rank 0 has exited its loop every non-zero rank has
performed its add. -/
def BarrierInv (size : Nat) (s : BarrierState) : Prop :=
  s.added.length = size - 1 ∧
  (s.rank0Done = true → ∀ r, r < size - 1 → s.added.getD r false = true)

/-- `BarrierInv` holds initially. -/
theorem barrierInv_init (size : Nat) : BarrierInv size (barrierInit size) := by
  constructor
  · simp [barrierInit]
  · intro h
    simp [barrierInit] at h

/-- `BarrierInv` is preserved by every step of the protocol. -/
theorem barrierInv_step (size : Nat) (s s' : BarrierState)
    (hstep : BarrierStep size s s') (hinv : BarrierInv size s) : BarrierInv size s' := by
  obtain ⟨hlen, hdone⟩ := hinv
  cases hstep with
  | workerAdd r hr hnot =>
    refine ⟨by simpa using hlen, ?_⟩
    intro htrue
    exfalso
    have := hdone htrue r hr
    rw [this] at hnot
    cases hnot
  | rank0Exit hc hnd =>
    refine ⟨hlen, ?_⟩
    intro _ r hr
    have hcount : s.added.count true ≤ s.added.length := List.count_le_length true s.added
    have heq : s.added.count true = s.added.length := by
      unfold storeCounter at hc
      omega
    have hall : ∀ b ∈ s.added, true = b := List.count_eq_length.mp heq
    have hr' : r < s.added.length := by omega
    rw [List.getD_eq_getElem?_getD, List.getElem?_eq_getElem hr']
    exact (hall _ (s.added.getElem_mem hr')).symm

/-- C9: in `DummyProcessGroup.barrier`, rank 0 never returns before the
shared store counter under the barrier key has reached size - 1, i.e. never
before every non-zero rank has performed its `store.add` on that key; each
non-zero rank executes its single straight-line `store.add(key, 1)` at most
once and returns without waiting, so the counter never exceeds size - 1. -/
theorem barrier_rank0_waits_for_all (size : Nat) (s : BarrierState)
    (h : Relation.ReflTransGen (BarrierStep size) (barrierInit size) s) :
    storeCounter s ≤ size - 1 ∧
    (s.rank0Done = true →
      size - 1 ≤ storeCounter s ∧
      ∀ r, r < size - 1 → s.added.getD r false = true) := by
  have hinv : BarrierInv size s := by
    induction h with
    | refl => exact barrierInv_init size
    | tail _hab hbc ih => exact barrierInv_step size _ _ hbc ih
  obtain ⟨hlen, hdone⟩ := hinv
  have hcount : s.added.count true ≤ s.added.length := List.count_le_length true s.added
  constructor
  · unfold storeCounter
    omega
  · intro htrue
    refine ⟨?_, hdone htrue⟩
    have hall := hdone htrue
    have heq : s.added.count true = s.added.length := by
      rw [List.count_eq_length]
      intro b hb
      obtain ⟨r, hr, hrb⟩ := List.getElem_of_mem hb
      have := hall r (by omega)
      rw [List.getD_eq_getElem?_getD, List.getElem?_eq_getElem hr] at this
      simp only [Option.getD_some] at this
      rw [← hrb, this]
    unfold storeCounter
    omega

theorem barrier_rank0_waits_for_all_witness :
    storeCounter { added := [true], rank0Done := true } ≤ 2 - 1 ∧
    (({ added := [true], rank0Done := true } : BarrierState).rank0Done = true →
      2 - 1 ≤ storeCounter { added := [true], rank0Done := true } ∧
      ∀ r, r < 2 - 1 →
        ({ added := [true], rank0Done := true } : BarrierState).added.getD r false
          = true) := by
  apply barrier_rank0_waits_for_all 2
  have h1 : BarrierStep 2 (barrierInit 2) { added := [true], rank0Done := false } :=
    @BarrierStep.workerAdd 2 (barrierInit 2) 0 (by decide) (by decide)
  have h2 : BarrierStep 2 { added := [true], rank0Done := false }
      { added := [true], rank0Done := true } :=
    @BarrierStep.rank0Exit 2 { added := [true], rank0Done := false }
      (by decide) (by decide)
  exact Relation.ReflTransGen.tail (Relation.ReflTransGen.tail .refl h1) h2

/-! ### Bucket-assignment invariants -/

/-- Every limit the per-dtype iterator yields is a configured limit. -/
theorem limAt_mem (limits : List Nat) (hne : limits ≠ []) (k : Nat) :
    limAt limits k ∈ limits := by
  have hlen : 0 < limits.length := List.length_pos.mpr hne
  have hidx : min k (limits.length - 1) < limits.length := by omega
  rw [limAt, List.getD_eq_getElem?_getD, List.getElem?_eq_getElem hidx]
  simp only [Option.getD_some]
  exact limits.getElem_mem hidx

/-- With positive configured limits, the applicable limit is positive. -/
theorem limAt_pos (limits : List Nat) (hne : limits ≠ [])
    (hpos : ∀ l ∈ limits, 0 < l) (k : Nat) : 0 < limAt limits k :=
  hpos _ (limAt_mem limits hne k)

/-- Appending one index adds that tensor's byte size. -/
theorem sumBytes_concat (tensors : List TensorMeta) (l : List Nat) (i : Nat) :
    sumBytes tensors (l ++ [i]) = sumBytes tensors l + bytesAt tensors i := by
  simp [sumBytes, List.sum_append]

/-- Dropping the last index cannot increase the byte size. -/
theorem sumBytes_dropLast_le (tensors : List TensorMeta) (l : List Nat) :
    sumBytes tensors l.dropLast ≤ sumBytes tensors l := by
  rcases List.eq_nil_or_concat l with rfl | ⟨L, b, rfl⟩
  · simp
  · rw [List.concat_eq_append, List.dropLast_concat, sumBytes_concat]
    omega

/-- A strictly increasing index list stays strictly increasing when an index
above all of its entries is appended. -/
theorem chain'_lt_concat (l : List Nat) (n : Nat)
    (h : l.Chain' (· < ·)) (hlt : ∀ i ∈ l, i < n) :
    (l ++ [n]).Chain' (· < ·) := by
  refine h.append (List.chain'_singleton n) ?_
  intro x hx y hy
  simp only [List.head?_cons, Option.mem_def, Option.some.injEq] at hy
  subst hy
  exact hlt x (List.mem_of_mem_getLast? hx)

/-- The shape invariant of one output bucket: strictly increasing indices of
a single dtype, whose byte size short of the final tensor is strictly below
the recorded per-bucket limit. -/
def BucketOk (tensors : List TensorMeta) (p : List Nat × Nat) : Prop :=
  p.1.Chain' (· < ·) ∧
  (∃ d, ∀ i ∈ p.1, dtypeAt tensors i = some d) ∧
  sumBytes tensors p.1.dropLast < p.2

/-- The invariant of one open accumulator after the first `n` tensors. -/
def AccOk (tensors : List TensorMeta) (limits : List Nat) (n : Nat)
    (d : ScalarType) (a : BucketAccum) : Prop :=
  a.sizeBytes = sumBytes tensors a.indices ∧
  a.sizeBytes < limAt limits a.limitIdx ∧
  a.indices.Chain' (· < ·) ∧
  ∀ i ∈ a.indices, i < n ∧ dtypeAt tensors i = some d

/-- The invariant of the fold state after the first `n` tensors. -/
def StInv (tensors : List TensorMeta) (limits : List Nat) (n : Nat)
    (s : BAState) : Prop :=
  (∀ p ∈ s.finalized, BucketOk tensors p) ∧
  AccOk tensors limits n .float s.floatAcc ∧
  AccOk tensors limits n .double s.doubleAcc

/-- `AccOk` is monotone in the number of consumed tensors. -/
theorem accOk_succ (tensors : List TensorMeta) (limits : List Nat) (n : Nat)
    (d : ScalarType) (a : BucketAccum)
    (h : AccOk tensors limits n d a) : AccOk tensors limits (n + 1) d a := by
  obtain ⟨h1, h2, h3, h4⟩ := h
  exact ⟨h1, h2, h3, fun i hi => ⟨Nat.lt_succ_of_lt (h4 i hi).1, (h4 i hi).2⟩⟩

/-- The invariant holds at the start of the fold. -/
theorem stInv_init (tensors : List TensorMeta) (limits : List Nat)
    (hne : limits ≠ []) (hpos : ∀ l ∈ limits, 0 < l) :
    StInv tensors limits 0 baInit := by
  refine ⟨by simp [baInit], ?_, ?_⟩ <;>
    exact ⟨rfl, limAt_pos limits hne hpos 0, List.chain'_nil, by simp [baInit]⟩

/-- One step of the fold preserves the invariant. -/
theorem baStep_inv (tensors : List TensorMeta) (limits : List Nat)
    (hne : limits ≠ []) (hpos : ∀ l ∈ limits, 0 < l)
    (n : Nat) (t : TensorMeta) (ht : tensors.get? n = some t)
    (s : BAState) (hinv : StInv tensors limits n s) :
    StInv tensors limits (n + 1) (baStep limits s (n, t)) := by
  obtain ⟨hfin, hf, hd⟩ := hinv
  have hbytes : bytesAt tensors n = t.nbytes := by
    rw [bytesAt, ht]
    rfl
  have hdt : dtypeAt tensors n = some t.dtype := by
    rw [dtypeAt, ht]
    rfl
  cases htd : t.dtype with
  | float =>
    obtain ⟨h1, h2, h3, h4⟩ := hf
    have hsum : s.floatAcc.sizeBytes + t.nbytes
        = sumBytes tensors (s.floatAcc.indices ++ [n]) := by
      rw [sumBytes_concat, h1, hbytes]
    have hchain : (s.floatAcc.indices ++ [n]).Chain' (· < ·) :=
      chain'_lt_concat _ n h3 (fun i hi => (h4 i hi).1)
    have hmem : ∀ i ∈ s.floatAcc.indices ++ [n],
        i < n + 1 ∧ dtypeAt tensors i = some ScalarType.float := by
      intro i hi
      rcases List.mem_append.mp hi with hi | hi
      · exact ⟨Nat.lt_succ_of_lt (h4 i hi).1, (h4 i hi).2⟩
      · rcases List.mem_singleton.mp hi with rfl
        rw [← htd]
        exact ⟨Nat.lt_succ_self i, hdt⟩
    simp only [baStep, htd, BAState.acc, BAState.setAcc]
    by_cases hcond : limAt limits s.floatAcc.limitIdx
        ≤ s.floatAcc.sizeBytes + t.nbytes
    · rw [if_pos hcond]
      refine ⟨?_, ?_, ?_⟩
      · intro p hp
        simp only [BAState.setAcc, List.mem_append, List.mem_singleton] at hp
        rcases hp with hp | rfl
        · exact hfin p hp
        · refine ⟨hchain, ⟨.float, fun i hi => (hmem i hi).2⟩, ?_⟩
          rw [List.dropLast_concat, ← h1]
          exact h2
      · exact ⟨rfl, limAt_pos limits hne hpos _, List.chain'_nil, by simp⟩
      · exact accOk_succ tensors limits n _ _ hd
    · rw [if_neg hcond]
      refine ⟨hfin, ⟨hsum, lt_of_not_le hcond, hchain, hmem⟩,
        accOk_succ tensors limits n _ _ hd⟩
  | double =>
    obtain ⟨h1, h2, h3, h4⟩ := hd
    have hsum : s.doubleAcc.sizeBytes + t.nbytes
        = sumBytes tensors (s.doubleAcc.indices ++ [n]) := by
      rw [sumBytes_concat, h1, hbytes]
    have hchain : (s.doubleAcc.indices ++ [n]).Chain' (· < ·) :=
      chain'_lt_concat _ n h3 (fun i hi => (h4 i hi).1)
    have hmem : ∀ i ∈ s.doubleAcc.indices ++ [n],
        i < n + 1 ∧ dtypeAt tensors i = some ScalarType.double := by
      intro i hi
      rcases List.mem_append.mp hi with hi | hi
      · exact ⟨Nat.lt_succ_of_lt (h4 i hi).1, (h4 i hi).2⟩
      · rcases List.mem_singleton.mp hi with rfl
        rw [← htd]
        exact ⟨Nat.lt_succ_self i, hdt⟩
    simp only [baStep, htd, BAState.acc, BAState.setAcc]
    by_cases hcond : limAt limits s.doubleAcc.limitIdx
        ≤ s.doubleAcc.sizeBytes + t.nbytes
    · rw [if_pos hcond]
      refine ⟨?_, ?_, ?_⟩
      · intro p hp
        simp only [BAState.setAcc, List.mem_append, List.mem_singleton] at hp
        rcases hp with hp | rfl
        · exact hfin p hp
        · refine ⟨hchain, ⟨.double, fun i hi => (hmem i hi).2⟩, ?_⟩
          rw [List.dropLast_concat, ← h1]
          exact h2
      · exact accOk_succ tensors limits n _ _ hf
      · exact ⟨rfl, limAt_pos limits hne hpos _, List.chain'_nil, by simp⟩
    · rw [if_neg hcond]
      refine ⟨hfin, accOk_succ tensors limits n _ _ hf,
        ⟨hsum, lt_of_not_le hcond, hchain, hmem⟩⟩

/-- The fold over the enumerated remaining tensors preserves the invariant. -/
theorem baFold_inv (tensors : List TensorMeta) (limits : List Nat)
    (hne : limits ≠ []) (hpos : ∀ l ∈ limits, 0 < l) :
    ∀ (ts : List TensorMeta) (n : Nat) (s : BAState),
      tensors.drop n = ts → StInv tensors limits n s →
      StInv tensors limits (n + ts.length)
        (List.foldl (baStep limits) s (List.enumFrom n ts)) := by
  intro ts
  induction ts with
  | nil =>
    intro n s _ hinv
    simpa using hinv
  | cons t ts ih =>
    intro n s hdrop hinv
    have ht : tensors.get? n = some t := by
      have hg := List.getElem?_drop tensors n 0
      rw [hdrop] at hg
      simpa [List.get?_eq_getElem?] using hg.symm
    have hdrop' : tensors.drop (n + 1) = ts := by
      have hdd : tensors.drop (n + 1) = (tensors.drop n).drop 1 := by
        rw [List.drop_drop]
      rw [hdd, hdrop]
      rfl
    have hstep := baStep_inv tensors limits hne hpos n t ht s hinv
    have hrest := ih (n + 1) _ hdrop' hstep
    have harith : n + (t :: ts).length = n + 1 + ts.length := by
      simp only [List.length_cons]
      omega
    rw [harith]
    exact hrest

/-- Every bucket produced by finalization satisfies the bucket invariant. -/
theorem baFinish_ok (tensors : List TensorMeta) (limits : List Nat)
    (n : Nat) (s : BAState) (hinv : StInv tensors limits n s) :
    ∀ p ∈ baFinish limits s, BucketOk tensors p := by
  obtain ⟨hfin, hf, hd⟩ := hinv
  intro p hp
  unfold baFinish at hp
  rw [List.append_assoc, List.mem_append, List.mem_append] at hp
  rcases hp with hp | hp | hp
  · exact hfin p hp
  · by_cases he : s.floatAcc.indices.isEmpty = true
    · rw [if_pos he] at hp
      cases hp
    · rw [if_neg he] at hp
      rw [List.mem_singleton] at hp
      subst hp
      obtain ⟨h1, h2, h3, h4⟩ := hf
      refine ⟨h3, ⟨.float, fun i hi => (h4 i hi).2⟩, ?_⟩
      calc sumBytes tensors s.floatAcc.indices.dropLast
          ≤ sumBytes tensors s.floatAcc.indices := sumBytes_dropLast_le tensors _
        _ = s.floatAcc.sizeBytes := h1.symm
        _ < limAt limits s.floatAcc.limitIdx := h2
  · by_cases he : s.doubleAcc.indices.isEmpty = true
    · rw [if_pos he] at hp
      cases hp
    · rw [if_neg he] at hp
      rw [List.mem_singleton] at hp
      subst hp
      obtain ⟨h1, h2, h3, h4⟩ := hd
      refine ⟨h3, ⟨.double, fun i hi => (h4 i hi).2⟩, ?_⟩
      calc sumBytes tensors s.doubleAcc.indices.dropLast
          ≤ sumBytes tensors s.doubleAcc.indices := sumBytes_dropLast_le tensors _
        _ = s.doubleAcc.sizeBytes := h1.symm
        _ < limAt limits s.doubleAcc.limitIdx := h2

/-- Buckets read off the final output satisfy the bucket invariant. -/
theorem compute_bucket_ok (tensors : List TensorMeta) (limits : List Nat)
    (hne : limits ≠ []) (hpos : ∀ l ∈ limits, 0 < l)
    (k : Nat) (b : List Nat) (lim : Nat)
    (hb : (compute_bucket_assignment_by_size tensors limits).1.get? k = some b)
    (hlim : (compute_bucket_assignment_by_size tensors limits).2.get? k = some lim) :
    BucketOk tensors (b, lim) := by
  have hfold := baFold_inv tensors limits hne hpos tensors 0 baInit (by simp)
    (stInv_init tensors limits hne hpos)
  have hok := baFinish_ok tensors limits _ _ hfold
  have hperm := List.perm_insertionSort (fun p q : List Nat × Nat =>
    p.1.headD 0 ≤ q.1.headD 0)
    (baFinish limits (tensors.enum.foldl (baStep limits) baInit))
  have hb' : (((baFinish limits (tensors.enum.foldl (baStep limits) baInit)).insertionSort
      (fun p q => p.1.headD 0 ≤ q.1.headD 0)).map Prod.fst).get? k = some b := hb
  have hlim' : (((baFinish limits (tensors.enum.foldl (baStep limits) baInit)).insertionSort
      (fun p q => p.1.headD 0 ≤ q.1.headD 0)).map Prod.snd).get? k = some lim := hlim
  rw [List.get?_eq_getElem?, List.getElem?_map, Option.map_eq_some'] at hb' hlim'
  obtain ⟨p, hpk, hp1⟩ := hb'
  obtain ⟨q, hqk, hq2⟩ := hlim'
  rw [hpk, Option.some.injEq] at hqk
  subst hqk
  have hpmem : p ∈ (baFinish limits (tensors.enum.foldl (baStep limits) baInit)).insertionSort
      (fun p q => p.1.headD 0 ≤ q.1.headD 0) := by
    obtain ⟨hk, hpe⟩ := List.getElem?_eq_some.mp hpk
    rw [← hpe]
    exact List.getElem_mem _
  have hpfin : p ∈ baFinish limits (tensors.enum.foldl (baStep limits) baInit) :=
    hperm.mem_iff.mp hpmem
  have := hok p hpfin
  rw [show ((b, lim) : List Nat × Nat) = p from by rw [← hp1, ← hq2]]
  exact this

/-- C5 counterexample: a bucket's total byte size is NOT always bounded by
the applicable byte-size limit. In the test_single_limit_single_dtype
configuration (float tensors of 100, 200, 100, 50 elements, limit list
[400]), bucket [1] holds the single 800-byte tensor 1 while its per-bucket
limit is 400. -/
theorem bucket_assignment_limit_counterexample :
    compute_bucket_assignment_by_size
        [⟨.float, 100⟩, ⟨.float, 200⟩, ⟨.float, 100⟩, ⟨.float, 50⟩] [400]
      = ([[0], [1], [2], [3]], [400, 400, 400, 400]) ∧
    sumBytes [⟨.float, 100⟩, ⟨.float, 200⟩, ⟨.float, 100⟩, ⟨.float, 50⟩] [1]
      = 800 ∧
    ¬ (800 ≤ 400) := by decide

/-- C5 (amended): for every list of gradient tensors and every nonempty list
of positive limits, compute_bucket_assignment_by_size groups tensor indices
into buckets that never mix dtypes, filling buckets in index order, and each
bucket's total byte size short of its final tensor is strictly below the
applicable per-bucket byte-size limit (so only a single oversized trailing
tensor can push a bucket past its limit); in particular six alternating
float[50]/double[25] tensors with limit [400] yield buckets
[[0, 2], [1, 3], [4], [5]] all with per-bucket limit 400, and four float[10]
tensors with limits [40, 80] yield buckets [[0], [1, 2], [3]] with
per-bucket limits [40, 80, 80]. -/
theorem bucket_assignment_spec (tensors : List TensorMeta) (limits : List Nat)
    (hne : limits ≠ []) (hpos : ∀ l ∈ limits, 0 < l) :
    (∀ (k : Nat) (b : List Nat) (lim : Nat),
      (compute_bucket_assignment_by_size tensors limits).1.get? k = some b →
      (compute_bucket_assignment_by_size tensors limits).2.get? k = some lim →
      b.Chain' (· < ·) ∧
      (∃ d, ∀ i ∈ b, dtypeAt tensors i = some d) ∧
      sumBytes tensors b.dropLast < lim) ∧
    compute_bucket_assignment_by_size
        [⟨.float, 50⟩, ⟨.double, 25⟩, ⟨.float, 50⟩, ⟨.double, 25⟩,
         ⟨.float, 50⟩, ⟨.double, 25⟩] [400]
      = ([[0, 2], [1, 3], [4], [5]], [400, 400, 400, 400]) ∧
    compute_bucket_assignment_by_size
        [⟨.float, 10⟩, ⟨.float, 10⟩, ⟨.float, 10⟩, ⟨.float, 10⟩] [40, 80]
      = ([[0], [1, 2], [3]], [40, 80, 80]) := by
  refine ⟨?_, by decide, by decide⟩
  intro k b lim hb hlim
  exact compute_bucket_ok tensors limits hne hpos k b lim hb hlim

theorem bucket_assignment_spec_witness :
    compute_bucket_assignment_by_size
        [⟨.float, 10⟩, ⟨.float, 10⟩, ⟨.float, 10⟩, ⟨.float, 10⟩] [40, 80]
      = ([[0], [1, 2], [3]], [40, 80, 80]) :=
  (bucket_assignment_spec
    [⟨.float, 10⟩, ⟨.float, 10⟩, ⟨.float, 10⟩, ⟨.float, 10⟩] [40, 80]
    (by decide) (by decide)).2.2

end PytorchC10d
